import Mathlib

/-!
Verification of the request engine of the spotify-lite client
(src/spotify.py): the request descriptor and its prepare step, the
credential manager (token refresh and authorization-code exchange), the
authenticated dispatcher with its single 401-triggered retry, the page
sequencer and the batch sequencer.

Python dicts are modelled as insertion-ordered association lists; the
stdlib helpers urlencode and parse_qs are modelled for query strings made
of characters that need no percent-escaping, which is the regime every
claim quantifies over.
-/

namespace SpotifyLite

/-- Insertion-ordered string dictionary, the model of a Python dict with
string keys and values. -/
abbrev Dict := List (String × String)

/-- Python d[k] = v: replace the value in place at the first (on a dict,
only) occurrence of the key, otherwise append the pair at the end. -/
def dictSet : Dict → String → String → Dict
  | [], k, v => [(k, v)]
  | p :: ps, k, v => if p.1 = k then (p.1, v) :: ps else p :: dictSet ps k v

/-- Python d.update(d2): apply d[k] = v for each pair of d2 in order. -/
def dictUpdate (d d2 : Dict) : Dict :=
  List.foldl (fun acc p => dictSet acc p.1 p.2) d d2

/-- Python d.get(k): first value bound to k, if any. -/
def dictGet (d : Dict) (k : String) : Option String :=
  (List.find? (fun p => p.1 == k) d).map (fun p => p.2)

/-- Accumulator pass of pySplit over the character list: cut at every
occurrence of the separator character. -/
def pySplitAux (c : Char) : List Char → List Char → List String
  | [], acc => [String.mk acc.reverse]
  | x :: xs, acc =>
    if x = c then String.mk acc.reverse :: pySplitAux c xs []
    else pySplitAux c xs (x :: acc)

/-- Model of Python str.split with a one-character separator, written
structurally over the character list so that concrete instances reduce. -/
def pySplit (c : Char) (s : String) : List String :=
  pySplitAux c s.data []

/-- Is needle a contiguous substring of hay (the model of the Python
in operator on strings). -/
def subList (needle : List Char) : List Char → Bool
  | [] => List.isPrefixOf needle []
  | x :: xs => List.isPrefixOf needle (x :: xs) || subList needle xs

/-- Model of urllib.parse.urlencode on a dict: join key=value pairs with
ampersands (percent-escaping omitted: values in scope need none). -/
def urlencodeD (d : Dict) : String :=
  String.intercalate "&" (List.map (fun p => p.1 ++ "=" ++ p.2) d)

/-- Worker for firstPerKey: drop pairs whose key was already seen. -/
def firstPerKeyAux (seen : List String) : List (String × String) → Dict
  | [] => []
  | p :: ps =>
    if p.1 ∈ seen then firstPerKeyAux seen ps
    else p :: firstPerKeyAux (p.1 :: seen) ps

/-- Keep the first pair for every key, in first-seen order: the model of
building a dict from a pair sequence where parse_qs groups repeated keys
and the v[0] projection takes the first value. -/
def firstPerKey (ps : List (String × String)) : Dict :=
  firstPerKeyAux [] ps

/-- Model of urllib.parse.parse_qs composed with the v[0] projection done
at the call site in prepare: split the query string on ampersands, split
each field on its first equals sign, drop fields with no equals sign and
fields with a blank value (the default keep_blank_values=False), keep the
first value per key. -/
def parseQs (qs : String) : Dict :=
  firstPerKey
    (List.filterMap
      (fun field =>
        match pySplit '=' field with
        | [] => none
        | [_] => none
        | k :: v :: rest =>
          if String.intercalate "=" (v :: rest) = "" then none
          else some (k, String.intercalate "=" (v :: rest)))
      (pySplit '&' qs))

/-- Model of json.dumps on a string-valued dict. -/
def jsonDumps (d : Dict) : String :=
  "\x7b" ++
    String.intercalate ", "
      (List.map (fun p => "\"" ++ p.1 ++ "\": \"" ++ p.2 ++ "\"") d) ++
  "\x7d"

/-- Model of base64.b64encode over the id:secret pair, kept abstract as a
tagged rendering: the claims never inspect the encoded octets. -/
def b64 (s : String) : String := "b64(" ++ s ++ ")"

/-- The transport-ready request produced by prepare, the model of the
MethodRequest instance handed to urlopen (src/spotify.py:116). -/
structure MethodRequest where
  method : String
  url : String
  body : Option String
  headers : Dict
  deriving DecidableEq

/-- The request descriptor, the model of class BaseRequest
(src/spotify.py:124): method, url, query params, json body, form body,
headers and the optional basic-auth pair. -/
structure BaseRequest where
  method : String
  url : String
  params : Dict
  json : Dict
  data : Dict
  headers : Dict
  auth : Option (String × String)
  deriving DecidableEq

/-- The body-selection step of prepare (src/spotify.py:149-153): the
serialized body, if any, and the headers after the Content-Type write. A
non-empty json body wins over a non-empty form body. -/
def prepareBody (r : BaseRequest) : Option String × Dict :=
  if r.json ≠ ({} : Dict) then
    (some (jsonDumps r.json),
     dictSet r.headers "Content-Type" "application/json")
  else if r.data ≠ ({} : Dict) then
    (some (urlencodeD r.data), r.headers)
  else
    (none, r.headers)

/-- The query-merge step of prepare (src/spotify.py:154-166): the params
after the aliased update and the actual URL, or the malformed-URL error.
When the URL carries a query string, the existing pairs are written over
the explicitly-set params through _params_actual, which aliases
self.params. -/
def prepareParams (r : BaseRequest) : Except String (Dict × String) :=
  if r.params ≠ ({} : Dict) then
    let parts := pySplit '?' r.url
    if parts.length > 2 ∨ parts.length < 1 then
      Except.error "malformed URL"
    else if parts.length = 2 then
      let merged := dictUpdate r.params (parseQs (List.getLast! parts))
      Except.ok (merged, (List.headI parts) ++ "?" ++ urlencodeD merged)
    else
      Except.ok (r.params, (List.headI parts) ++ "?" ++ urlencodeD r.params)
  else
    Except.ok (r.params, r.url)

/-- Model of BaseRequest.prepare (src/spotify.py:143-172). Python mutates
self.headers and, through the _params_actual alias, self.params; the model
returns the mutated descriptor next to the transport request. The single
raise site (malformed URL) is the error case. -/
def prepare (r : BaseRequest) : Except String (BaseRequest × MethodRequest) :=
  let body := (prepareBody r).1
  let headers1 := (prepareBody r).2
  match prepareParams r with
  | Except.error e => Except.error e
  | Except.ok (params1, urlActual) =>
    let headers2 :=
      match r.auth with
      | none => headers1
      | some (u, p) =>
          dictSet headers1 "Authorization" ("Basic " ++ b64 (u ++ ":" ++ p))
    Except.ok
      ({ r with params := params1, headers := headers2 },
       { method := r.method, url := urlActual, body := body,
         headers := headers2 })

/-- The client's mutable fields, the model of the SpotifyAPI instance
attributes (src/spotify.py:183-193). -/
structure ClientState where
  clientId : Option String
  clientSecret : Option String
  accessToken : Option String
  refreshToken : Option String
  redirectUri : Option String
  userId : Option String
  deriving DecidableEq

/-- The JSON payload of a successful token-endpoint response:
access_token is always present, refresh_token may be omitted. -/
structure TokenPayload where
  accessToken : String
  refreshToken : Option String
  deriving DecidableEq

/-- What urlopen produces for a POST to the token endpoint: the decoded
success payload, or an HTTPError carrying status and body. -/
inductive HttpResult where
  | success (payload : TokenPayload)
  | httpError (status : Nat) (body : String)
  deriving DecidableEq

/-- Outcome of running a state-mutating operation: normal return, or an
exception carrying the message together with the state at the moment of
the raise (Python leaves the object as mutated so far). -/
inductive RunResult where
  | ok (st : ClientState)
  | err (st : ClientState) (msg : String)
  deriving DecidableEq

/-- Python str applied to an optional string: None renders as "None". -/
def pyStr : Option String → String
  | none => "None"
  | some s => s

/-- Model of SpotifyAPI._refresh_access_token (src/spotify.py:195-213).
The outbound POST to the token endpoint is abstracted into the resp
argument; assignments happen only after urlopen returns successfully,
and an HTTPError is re-raised with status and body. -/
def refresh_access_token (st : ClientState) (resp : HttpResult) : RunResult :=
  if st.refreshToken = none then
    RunResult.err st "missing refresh token"
  else
    match resp with
    | HttpResult.httpError status body =>
        RunResult.err st
          ("error refreshing user token - " ++ toString status ++ " - " ++ body)
    | HttpResult.success payload =>
        RunResult.ok
          { st with
              accessToken := some payload.accessToken,
              refreshToken :=
                match payload.refreshToken with
                | some t => some t
                | none => st.refreshToken }

/-- Model of SpotifyAPI.register_code (src/spotify.py:257-285). On success
access_token is assigned first, then refresh_token by plain indexing (a
payload with no refresh_token raises KeyError after access_token was
already replaced), then user_id is cleared; an HTTPError from urlopen is
re-raised before any assignment. -/
def register_code (st : ClientState) (resp : HttpResult) : RunResult :=
  if st.clientId = none ∨ st.clientSecret = none then
    RunResult.err st "client credentials not provided"
  else if st.redirectUri = none then
    RunResult.err st "missing redirect URI"
  else
    match resp with
    | HttpResult.httpError status body =>
        RunResult.err st
          ("error generating user access token - " ++ toString status ++
           " - " ++ body)
    | HttpResult.success payload =>
        let st1 := { st with accessToken := some payload.accessToken }
        match payload.refreshToken with
        | none => RunResult.err st1 "KeyError: refresh_token"
        | some rt =>
            RunResult.ok { st1 with refreshToken := some rt, userId := none }

/-- What urlopen produces for a resource call: a response object (status
and body) for a success status, or a raised HTTPError for an error
status. -/
inductive HttpOutcome where
  | ok (status : Nat) (body : String)
  | httpError (status : Nat) (body : String)
  deriving DecidableEq

/-- Everything observable about one run of the dispatcher: the value
returned or the exception raised, the transport requests actually sent in
order, how many times the token refresh ran, and the final client and
descriptor states. -/
structure ApiReqOut where
  result : Except String (Nat × String)
  issued : List MethodRequest
  refreshCalls : Nat
  state : ClientState
  req : BaseRequest

/-- Model of SpotifyAPI._api_req (src/spotify.py:215-230): set the bearer
header, prepare and send; on an HTTPError other than 401 re-raise; on 401
refresh once, re-set the bearer header, prepare and send once more; a
second HTTPError of any status is wrapped into a final error. The two
network outcomes and the token-endpoint outcome are inputs; json.loads on
the second error body is abstracted to the body text. -/
def api_req (st : ClientState) (req : BaseRequest) (o1 : HttpOutcome)
    (refreshResp : HttpResult) (o2 : HttpOutcome) : ApiReqOut :=
  let req1 :=
    { req with
        headers :=
          dictSet req.headers "Authorization"
            ("Bearer " ++ pyStr st.accessToken) }
  match prepare req1 with
  | Except.error m =>
      { result := Except.error m, issued := [], refreshCalls := 0,
        state := st, req := req1 }
  | Except.ok (req2, m1) =>
    match o1 with
    | HttpOutcome.ok s b =>
        { result := Except.ok (s, b), issued := [m1], refreshCalls := 0,
          state := st, req := req2 }
    | HttpOutcome.httpError s b =>
      if s ≠ 401 then
        { result :=
            Except.error
              ("HTTPError - " ++ toString s ++ " - " ++ b),
          issued := [m1], refreshCalls := 0, state := st, req := req2 }
      else
        match refresh_access_token st refreshResp with
        | RunResult.err st1 m =>
            { result := Except.error m, issued := [m1], refreshCalls := 1,
              state := st1, req := req2 }
        | RunResult.ok st1 =>
          let req3 :=
            { req2 with
                headers :=
                  dictSet req2.headers "Authorization"
                    ("Bearer " ++ pyStr st1.accessToken) }
          match prepare req3 with
          | Except.error m =>
              { result := Except.error m, issued := [m1],
                refreshCalls := 1, state := st1, req := req3 }
          | Except.ok (req4, m2) =>
            match o2 with
            | HttpOutcome.ok s2 b2 =>
                { result := Except.ok (s2, b2), issued := [m1, m2],
                  refreshCalls := 1, state := st1, req := req4 }
            | HttpOutcome.httpError s2 b2 =>
                { result :=
                    Except.error
                      ("error issuing api request - " ++ toString s2 ++
                       " - " ++ b2),
                  issued := [m1, m2], refreshCalls := 1, state := st1,
                  req := req4 }

/-- A Spotify paging object after JSON decoding (and after the optional
descent into a named field): the items of the page and the next cursor. -/
structure PageObj (α : Type) where
  items : List α
  next : Option String
  deriving DecidableEq

/-- Python truthiness of the next_url loop variable: None and the empty
string end the loop. -/
def truthy : Option String → Bool
  | none => false
  | some s => s ≠ ""

/-- The while loop of SpotifyAPI._resp_paginator (src/spotify.py:323-331)
with explicit fuel: set req.url to the cursor, prepare and send through
the dispatcher (abstracted to send on the prepared request, the no-401
path; the JSON decode and optional oname descent are folded into send
returning the paging object), yield the items, continue with the next
field. Returns the yielded items and the transport requests issued; none
when the fuel runs out or a call fails. -/
def resp_paginator_loop {α : Type} (send : MethodRequest → Option (PageObj α)) :
    Nat → BaseRequest → Option String → Option (List α × List MethodRequest)
  | fuel, req, nextUrl =>
    if truthy nextUrl then
      match fuel, nextUrl with
      | 0, _ => none
      | _ + 1, none => none
      | fuel' + 1, some u =>
        let req0 := { req with url := u }
        match prepare req0 with
        | Except.error _ => none
        | Except.ok (req1, mreq) =>
          match send mreq with
          | none => none
          | some page =>
            match resp_paginator_loop send fuel' req1 page.next with
            | none => none
            | some (items, reqs) =>
                some (page.items ++ items, mreq :: reqs)
    else
      some ([], [])

/-- Model of SpotifyAPI._resp_paginator (src/spotify.py:311-331): when a
limit is given it is written into the descriptor's params before the
loop; the loop starts from req.url. -/
def resp_paginator {α : Type} (send : MethodRequest → Option (PageObj α))
    (fuel : Nat) (req : BaseRequest) (limit : Option String) :
    Option (List α × List MethodRequest) :=
  let req1 :=
    match limit with
    | none => req
    | some l => { req with params := dictSet req.params "limit" l }
  resp_paginator_loop send fuel req1 (some req1.url)

/-- Structural worker for chunked: the fuel only serves termination and
is invisible at fuel ≥ xs.length. -/
def chunkedAux {α : Type} : Nat → List α → Nat → List (List α)
  | _, [], _ => []
  | _, _, 0 => []
  | 0, _ :: _, _ + 1 => []
  | f + 1, x :: xs, n + 1 =>
      List.take (n + 1) (x :: xs) ::
        chunkedAux f (List.drop (n + 1) (x :: xs)) (n + 1)

/-- Model of chunked (src/spotify.py:37-40): successive n-sized slices of
xs in order. Python raises ValueError on n = 0; the model returns [] there
and every theorem assumes 0 < n. -/
def chunked {α : Type} (xs : List α) (n : Nat) : List (List α) :=
  chunkedAux xs.length xs n

/-- The two parameter targets of SpotifyAPI._req_paginator
(src/spotify.py:33-35). -/
inductive ParamType where
  | QUERY
  | JSON
  deriving DecidableEq

/-- JSON rendering of a chunk written into the json body when
ptype = JSON (the Dict model is string-valued, so the list value is
modelled by its rendering). -/
def jsonList (c : List String) : String :=
  "[" ++ String.intercalate ", " (List.map (fun s => "\"" ++ s ++ "\"") c) ++ "]"

/-- The loop body of SpotifyAPI._req_paginator (src/spotify.py:333-347)
over an explicit chunk list, threading the reused descriptor: write the
chunk into the named query parameter (comma-joined) or json field, then
issue one dispatcher call (abstracted to call on the updated descriptor).
Returns the per-chunk call results in order and the final descriptor. -/
def req_paginator_go {ρ : Type} (call : BaseRequest → ρ) (iname : String)
    (ptype : ParamType) :
    List (List String) → BaseRequest → List ρ × BaseRequest
  | [], req => ([], req)
  | c :: cs, req =>
    let req1 :=
      match ptype with
      | ParamType.QUERY =>
          { req with
              params := dictSet req.params iname (String.intercalate "," c) }
      | ParamType.JSON =>
          { req with json := dictSet req.json iname (jsonList c) }
    let r := call req1
    let rest := req_paginator_go call iname ptype cs req1
    (r :: rest.1, rest.2)

/-- Model of SpotifyAPI._req_paginator (src/spotify.py:333-347) for a
consumer that drains the generator: one dispatcher call per chunk of xs,
chunks of size limit, in input order. The optional oname descent flattens
responses downstream and does not change the number of calls. -/
def req_paginator {ρ : Type} (call : BaseRequest → ρ) (req : BaseRequest)
    (xs : List String) (iname : String) (limit : Nat) (ptype : ParamType) :
    List ρ × BaseRequest :=
  req_paginator_go call iname ptype (chunked xs limit) req

theorem dictGet_nil (k : String) : dictGet [] k = none := rfl

theorem dictGet_cons (p : String × String) (ps : Dict) (k : String) :
    dictGet (p :: ps) k = if p.1 = k then some p.2 else dictGet ps k := by
  by_cases h : p.1 = k
  · have hb : (p.1 == k) = true := by simp [h]
    simp [dictGet, List.find?, hb, h]
  · have hb : (p.1 == k) = false := by simp [h]
    simp [dictGet, List.find?, hb, h]

theorem dictSet_cons (p : String × String) (ps : Dict) (k v : String) :
    dictSet (p :: ps) k v =
      if p.1 = k then (p.1, v) :: ps else p :: dictSet ps k v := rfl

theorem dictGet_dictSet_self (d : Dict) (k v : String) :
    dictGet (dictSet d k v) k = some v := by
  induction d with
  | nil => simp [dictSet, dictGet_cons]
  | cons p ps ih =>
    rw [dictSet_cons]
    by_cases h : p.1 = k
    · rw [if_pos h, dictGet_cons, if_pos h]
    · rw [if_neg h, dictGet_cons, if_neg h]
      exact ih

theorem dictGet_dictSet_other (d : Dict) (k v k' : String) (h : k' ≠ k) :
    dictGet (dictSet d k v) k' = dictGet d k' := by
  induction d with
  | nil =>
    show dictGet [(k, v)] k' = none
    rw [dictGet_cons, if_neg (fun hc => h hc.symm), dictGet_nil]
  | cons p ps ih =>
    rw [dictSet_cons]
    by_cases hp : p.1 = k
    · have hp' : ¬(p.1 = k') := fun hc => h (by rw [← hc, hp])
      rw [if_pos hp, dictGet_cons, dictGet_cons]
      simp only [hp', if_neg, not_false_iff]
    · rw [if_neg hp, dictGet_cons, dictGet_cons]
      by_cases hq : p.1 = k'
      · rw [if_pos hq, if_pos hq]
      · rw [if_neg hq, if_neg hq]
        exact ih

theorem dictUpdate_nil (d : Dict) : dictUpdate d [] = d := rfl

theorem dictUpdate_cons (d : Dict) (p : String × String)
    (ps : List (String × String)) :
    dictUpdate d (p :: ps) = dictUpdate (dictSet d p.1 p.2) ps := rfl

theorem dictGet_dictUpdate_of_none (d d2 : Dict) (k : String)
    (h : dictGet d2 k = none) :
    dictGet (dictUpdate d d2) k = dictGet d k := by
  induction d2 generalizing d with
  | nil => rfl
  | cons p ps ih =>
    rw [dictGet_cons] at h
    by_cases hp : p.1 = k
    · rw [if_pos hp] at h
      exact absurd h (by simp)
    · rw [if_neg hp] at h
      rw [dictUpdate_cons, ih (dictSet d p.1 p.2) h]
      exact dictGet_dictSet_other d p.1 p.2 k fun hc => hp hc.symm

theorem dictGet_eq_none_of_not_mem (d : Dict) (k : String)
    (h : k ∉ List.map Prod.fst d) :
    dictGet d k = none := by
  induction d with
  | nil => rfl
  | cons p ps ih =>
    rw [List.map_cons, List.mem_cons] at h
    push_neg at h
    rw [dictGet_cons, if_neg (fun hc => h.1 hc.symm)]
    exact ih h.2

theorem dictGet_dictUpdate_of_some (d d2 : Dict) (k v : String)
    (hnd : List.Nodup (List.map Prod.fst d2)) (h : dictGet d2 k = some v) :
    dictGet (dictUpdate d d2) k = some v := by
  induction d2 generalizing d with
  | nil => exact absurd h (by simp [dictGet_nil])
  | cons p ps ih =>
    rw [List.map_cons, List.nodup_cons] at hnd
    rw [dictGet_cons] at h
    rw [dictUpdate_cons]
    by_cases hp : p.1 = k
    · rw [if_pos hp] at h
      have hv : p.2 = v := Option.some_injective _ h
      have hps : dictGet ps k = none := by
        apply dictGet_eq_none_of_not_mem
        rw [← hp]
        exact hnd.1
      rw [dictGet_dictUpdate_of_none _ _ _ hps]
      rw [← hv, ← hp]
      exact dictGet_dictSet_self d p.1 p.2
    · rw [if_neg hp] at h
      exact ih (dictSet d p.1 p.2) hnd.2 h

theorem firstPerKeyAux_nodup_and_fresh (ps : List (String × String)) :
    ∀ seen : List String,
      List.Nodup (List.map Prod.fst (firstPerKeyAux seen ps)) ∧
      ∀ x, x ∈ List.map Prod.fst (firstPerKeyAux seen ps) → x ∉ seen := by
  induction ps with
  | nil =>
    intro seen
    exact ⟨List.nodup_nil, by intro x hx; exact absurd hx (by simp [firstPerKeyAux])⟩
  | cons p ps ih =>
    intro seen
    by_cases hp : p.1 ∈ seen
    · have heq : firstPerKeyAux seen (p :: ps) = firstPerKeyAux seen ps := by
        simp [firstPerKeyAux, hp]
      rw [heq]
      exact ih seen
    · have heq : firstPerKeyAux seen (p :: ps)
          = p :: firstPerKeyAux (p.1 :: seen) ps := by
        simp [firstPerKeyAux, hp]
      have ihs := ih (p.1 :: seen)
      rw [heq, List.map_cons, List.nodup_cons]
      refine ⟨⟨?_, ihs.1⟩, ?_⟩
      · intro hc
        have := ihs.2 p.1 hc
        simp at this
      · intro x hx
        rw [List.mem_cons] at hx
        rcases hx with hx | hx
        · rw [hx]; exact hp
        · have := ihs.2 x hx
          intro hc
          exact this (List.mem_cons_of_mem _ hc)

theorem parseQs_keys_nodup (qs : String) :
    List.Nodup (List.map Prod.fst (parseQs qs)) :=
  (firstPerKeyAux_nodup_and_fresh _ []).1

/-! Lemmas about prepare. -/

theorem pySplitAux_ne_nil (c : Char) (xs acc : List Char) :
    pySplitAux c xs acc ≠ [] := by
  induction xs generalizing acc with
  | nil => simp [pySplitAux]
  | cons x xs ih =>
    by_cases h : x = c
    · simp [pySplitAux, h]
    · simpa [pySplitAux, h] using ih (x :: acc)

theorem prepareParams_empty (r : BaseRequest) (h : r.params = []) :
    prepareParams r = Except.ok (r.params, r.url) := by
  simp [prepareParams, h]

theorem prepareParams_one_part (r : BaseRequest) (b : String)
    (hp : r.params ≠ []) (hsplit : pySplit '?' r.url = [b]) :
    prepareParams r = Except.ok (r.params, b ++ "?" ++ urlencodeD r.params) := by
  have hp' : r.params ≠ ({} : Dict) := hp
  simp only [prepareParams, hp', hsplit]
  simp [hsplit]
  intro hcontra
  exact absurd hcontra hp

theorem prepareParams_two_parts (r : BaseRequest) (b q : String)
    (hp : r.params ≠ []) (hsplit : pySplit '?' r.url = [b, q]) :
    prepareParams r =
      Except.ok (dictUpdate r.params (parseQs q),
        b ++ "?" ++ urlencodeD (dictUpdate r.params (parseQs q))) := by
  have hp' : r.params ≠ ({} : Dict) := hp
  simp only [prepareParams, hp', hsplit]
  simp [hsplit, List.getLast!]
  intro hcontra
  exact absurd hcontra hp

theorem prepareBody_json (r : BaseRequest) (h : r.json ≠ []) :
    prepareBody r =
      (some (jsonDumps r.json),
       dictSet r.headers "Content-Type" "application/json") := by
  simp [prepareBody, h]

theorem prepareBody_empty (r : BaseRequest) (h1 : r.json = [])
    (h2 : r.data = []) :
    prepareBody r = (none, r.headers) := by
  simp [prepareBody, h1, h2]

theorem prepare_of_params_ok (r : BaseRequest) (ps : Dict) (u : String)
    (hauth : r.auth = none) (hpp : prepareParams r = Except.ok (ps, u)) :
    prepare r =
      Except.ok
        ({ r with params := ps, headers := (prepareBody r).2 },
         { method := r.method, url := u, body := (prepareBody r).1,
           headers := (prepareBody r).2 }) := by
  simp [prepare, hpp, hauth]

theorem prepare_frame (r r' : BaseRequest) (m : MethodRequest)
    (h : prepare r = Except.ok (r', m)) :
    r'.method = r.method ∧ r'.url = r.url ∧ r'.json = r.json ∧
      r'.data = r.data ∧ r'.auth = r.auth := by
  unfold prepare at h
  cases hpp : prepareParams r with
  | error e => rw [hpp] at h; exact absurd h (by simp)
  | ok pu =>
    rw [hpp] at h
    obtain ⟨hr, _⟩ := Prod.mk.injEq .. ▸ (Except.ok.injEq .. ▸ h)
    rw [← hr]
    exact ⟨rfl, rfl, rfl, rfl, rfl⟩

/-- A descriptor with no params, no body and no basic auth: prepare is
the identity on it and issues a request at its url with its headers. -/
def plainReq (r : BaseRequest) : Prop :=
  r.params = [] ∧ r.json = [] ∧ r.data = [] ∧ r.auth = none

theorem prepare_plain (r : BaseRequest) (h : plainReq r) :
    prepare r =
      Except.ok
        (r, { method := r.method, url := r.url, body := none,
              headers := r.headers }) := by
  obtain ⟨h1, h2, h3, h4⟩ := h
  rw [prepare_of_params_ok r r.params r.url h4 (prepareParams_empty r h1),
    prepareBody_empty r h2 h3]

theorem prepare_query_no_split (r : BaseRequest) (b : String)
    (hjson : r.json = []) (hdata : r.data = []) (hauth : r.auth = none)
    (hp : r.params ≠ []) (hsplit : pySplit '?' r.url = [b]) :
    prepare r =
      Except.ok
        (r, { method := r.method, url := b ++ "?" ++ urlencodeD r.params,
              body := none, headers := r.headers }) := by
  rw [prepare_of_params_ok r r.params (b ++ "?" ++ urlencodeD r.params) hauth
    (prepareParams_one_part r b hp hsplit), prepareBody_empty r hjson hdata]

/-! Lemmas about chunking and the batch sequencer. -/

theorem chunkedAux_nil (f n : Nat) :
    (chunkedAux f ([] : List α) n) = [] := by
  cases f <;> cases n <;> rfl

theorem chunkedAux_cons (f n : Nat) (x : α) (xs : List α) :
    chunkedAux (f + 1) (x :: xs) (n + 1)
      = List.take (n + 1) (x :: xs)
        :: chunkedAux f (List.drop (n + 1) (x :: xs)) (n + 1) := rfl

theorem chunkedAux_flatten {α : Type} (n : Nat) :
    ∀ (f : Nat) (xs : List α), List.length xs ≤ f →
      (chunkedAux f xs (n + 1)).flatten = xs := by
  intro f
  induction f with
  | zero =>
    intro xs h
    cases xs with
    | nil => rw [chunkedAux_nil]; rfl
    | cons x xs => simp at h
  | succ f ih =>
    intro xs h
    cases xs with
    | nil => rw [chunkedAux_nil]; rfl
    | cons x xs =>
      rw [chunkedAux_cons, List.flatten_cons, ih _ ?_, List.take_append_drop]
      simp only [List.length_drop, List.length_cons]
      simp only [List.length_cons] at h
      omega

theorem chunkedAux_sizes {α : Type} (n : Nat) :
    ∀ (f : Nat) (xs : List α) (c : List α),
      c ∈ chunkedAux f xs (n + 1) → c.length ≤ n + 1 := by
  intro f
  induction f with
  | zero =>
    intro xs c hc
    cases xs with
    | nil => rw [chunkedAux_nil] at hc; exact absurd hc (by simp)
    | cons x xs => exact absurd hc (by simp [chunkedAux])
  | succ f ih =>
    intro xs c hc
    cases xs with
    | nil => rw [chunkedAux_nil] at hc; exact absurd hc (by simp)
    | cons x xs =>
      rw [chunkedAux_cons] at hc
      rcases List.mem_cons.mp hc with hc | hc
      · rw [hc, List.length_take]
        omega
      · exact ih _ c hc

theorem chunkedAux_full_sizes {α : Type} (n : Nat) :
    ∀ (f : Nat) (xs : List α) (c : List α),
      c ∈ (chunkedAux f xs (n + 1)).dropLast → c.length = n + 1 := by
  intro f
  induction f with
  | zero =>
    intro xs c hc
    cases xs with
    | nil => rw [chunkedAux_nil] at hc; exact absurd hc (by simp)
    | cons x xs => exact absurd hc (by simp [chunkedAux])
  | succ f ih =>
    intro xs c hc
    cases xs with
    | nil => rw [chunkedAux_nil] at hc; exact absurd hc (by simp)
    | cons x xs =>
      rw [chunkedAux_cons] at hc
      cases hrest : chunkedAux f (List.drop (n+1) (x :: xs)) (n+1) with
      | nil => rw [hrest] at hc; exact absurd hc (by simp)
      | cons r rs =>
        rw [hrest, List.dropLast_cons_of_ne_nil (by simp), List.mem_cons] at hc
        rcases hc with hc | hc
        · have hne : List.drop (n+1) (x :: xs) ≠ [] := by
            intro hzero
            rw [hzero, chunkedAux_nil] at hrest
            exact List.noConfusion hrest
          have hlen : n + 1 < List.length (x :: xs) := by
            have := List.length_pos.mpr hne
            simp only [List.length_drop] at this
            omega
          rw [hc, List.length_take]
          omega
        · exact ih _ c (hrest ▸ hc)

theorem chunkedAux_count {α : Type} (n : Nat) :
    ∀ (f : Nat) (xs : List α), List.length xs ≤ f →
      (chunkedAux f xs (n + 1)).length
        = (List.length xs + n) / (n + 1) := by
  intro f
  induction f with
  | zero =>
    intro xs h
    cases xs with
    | nil =>
      rw [chunkedAux_nil]
      show 0 = (0 + n) / (n + 1)
      rw [Nat.zero_add, Nat.div_eq_of_lt (by omega)]
    | cons x xs => simp at h
  | succ f ih =>
    intro xs h
    cases xs with
    | nil =>
      rw [chunkedAux_nil]
      show 0 = (0 + n) / (n + 1)
      rw [Nat.zero_add, Nat.div_eq_of_lt (by omega)]
    | cons x xs =>
      rw [chunkedAux_cons, List.length_cons, ih _ ?_]
      · simp only [List.length_drop, List.length_cons]
        by_cases hL : List.length xs + 1 ≤ n + 1
        · have h0 : List.length xs + 1 - (n + 1) = 0 := by omega
          rw [h0, Nat.zero_add, Nat.div_eq_of_lt (by omega)]
          have hone : (List.length xs + 1 + n) / (n + 1) = 1 := by
            apply Nat.div_eq_of_lt_le
            · omega
            · have hmul : (1 + 1) * (n + 1) = 2 * n + 2 := by ring
              omega
          omega
        · have heq : List.length xs + 1 - (n + 1) + n = List.length xs := by
            omega
          have heq2 : List.length xs + 1 + n = List.length xs + (n + 1) := by
            omega
          rw [heq, heq2, Nat.add_div_right _ (Nat.succ_pos n)]
      · simp only [List.length_drop, List.length_cons]
        simp only [List.length_cons] at h
        omega

theorem req_paginator_go_length {ρ : Type} (call : BaseRequest → ρ)
    (iname : String) (ptype : ParamType) :
    ∀ (cs : List (List String)) (req : BaseRequest),
      (req_paginator_go call iname ptype cs req).1.length = cs.length := by
  intro cs
  induction cs with
  | nil => intro req; rfl
  | cons c cs ih =>
    intro req
    simp only [req_paginator_go, List.length_cons]
    rw [ih]

theorem req_paginator_go_payloads (iname : String) :
    ∀ (cs : List (List String)) (req : BaseRequest),
      (req_paginator_go (fun r => r) iname ParamType.QUERY cs req).1.map
          (fun r => dictGet r.params iname)
        = cs.map (fun c => some (String.intercalate "," c)) := by
  intro cs
  induction cs with
  | nil => intro req; rfl
  | cons c cs ih =>
    intro req
    simp only [req_paginator_go, List.map_cons]
    rw [ih]
    simp [dictGet_dictSet_self]

/-! Chains of pages served by a paginated endpoint. -/

/-- The transport request that prepare produces from a plain descriptor
(no params, no body, no basic auth) pointed at url u. -/
def plainMReq (method : String) (headers : Dict) (u : String) :
    MethodRequest :=
  { method := method, url := u, body := none, headers := headers }

theorem resp_paginator_loop_done {α : Type}
    (send : MethodRequest → Option (PageObj α)) (f : Nat) (r : BaseRequest)
    (nu : Option String) (h : truthy nu = false) :
    resp_paginator_loop send f r nu = some ([], []) := by
  cases nu with
  | none => cases f <;> rfl
  | some s =>
    have hs : s = "" := by
      by_contra hc
      simp [truthy, hc] at h
    subst hs
    cases f <;> rfl

theorem resp_paginator_loop_step {α : Type}
    (send : MethodRequest → Option (PageObj α)) (f : Nat) (r : BaseRequest)
    (u : String) (hu : u ≠ "") :
    resp_paginator_loop send (f + 1) r (some u)
      = match prepare { r with url := u } with
        | Except.error _ => none
        | Except.ok (req1, mreq) =>
          match send mreq with
          | none => none
          | some page =>
            match resp_paginator_loop send f req1 page.next with
            | none => none
            | some (items, reqs) => some (page.items ++ items, mreq :: reqs)
      := by
  have ht : truthy (some u) = true := by simp [truthy, hu]
  conv =>
    lhs
    rw [resp_paginator_loop.eq_def]
  dsimp only
  rw [ht]
  rw [if_pos rfl]

theorem resp_paginator_loop_step_plain {α : Type}
    (send : MethodRequest → Option (PageObj α)) (f : Nat) (r : BaseRequest)
    (u : String) (p : PageObj α) (hu : u ≠ "") (hplain : plainReq r)
    (hsend : send (plainMReq r.method r.headers u) = some p) :
    resp_paginator_loop send (f + 1) r (some u)
      = match resp_paginator_loop send f { r with url := u } p.next with
        | none => none
        | some (items, reqs) =>
            some (p.items ++ items, plainMReq r.method r.headers u :: reqs)
      := by
  rw [resp_paginator_loop_step send f r u hu,
    prepare_plain { r with url := u } hplain]
  show (match send (plainMReq r.method r.headers u) with
    | none => none
    | some page =>
      match resp_paginator_loop send f { r with url := u } page.next with
      | none => none
      | some (items, reqs) =>
          some (page.items ++ items, plainMReq r.method r.headers u :: reqs))
    = _
  rw [hsend]

/-- send serves the pages along a chain starting at url u: each page is
returned for its url, every page but the last carries the next url, the
last one carries an absent or empty cursor. -/
def servesFrom {α : Type} (send : MethodRequest → Option (PageObj α))
    (method : String) (headers : Dict) : String → List (PageObj α) → Prop
  | _, [] => False
  | u, [p] =>
      u ≠ "" ∧ send (plainMReq method headers u) = some p ∧
        truthy p.next = false
  | u, p :: q :: ps =>
      u ≠ "" ∧ send (plainMReq method headers u) = some p ∧
        ∃ u2, p.next = some u2 ∧ servesFrom send method headers u2 (q :: ps)

theorem resp_paginator_loop_chain {α : Type}
    (send : MethodRequest → Option (PageObj α)) (method : String)
    (headers : Dict) :
    ∀ (pages : List (PageObj α)) (u : String) (fuel : Nat)
      (r : BaseRequest),
      r.method = method → r.headers = headers → plainReq r →
      servesFrom send method headers u pages → pages.length ≤ fuel →
      ∃ reqs,
        resp_paginator_loop send fuel r (some u)
          = some ((pages.map (fun p => p.items)).flatten, reqs) ∧
        reqs.length = pages.length := by
  intro pages
  induction pages with
  | nil =>
    intro u fuel r _ _ _ hchain _
    exact absurd hchain (by simp [servesFrom])
  | cons p rest ih =>
    intro u fuel r hm hh hplain hchain hfuel
    cases fuel with
    | zero => simp at hfuel
    | succ f =>
      have hu : u ≠ "" := by
        cases rest with
        | nil => exact hchain.1
        | cons q ps => exact hchain.1
      have hsend : send (plainMReq r.method r.headers u) = some p := by
        rw [hm, hh]
        cases rest with
        | nil => exact hchain.2.1
        | cons q ps => exact hchain.2.1
      rw [resp_paginator_loop_step_plain send f r u p hu hplain hsend]
      have hplain0 : plainReq { r with url := u } := hplain
      cases rest with
      | nil =>
        have hnext : truthy p.next = false := hchain.2.2
        rw [resp_paginator_loop_done send f { r with url := u } p.next hnext]
        exact ⟨[plainMReq r.method r.headers u], by simp, by simp⟩
      | cons q ps =>
        obtain ⟨u2, hu2, hchain2⟩ := hchain.2.2
        have hfuel2 : (q :: ps).length ≤ f := by
          simp only [List.length_cons] at hfuel ⊢
          omega
        obtain ⟨reqs2, hloop2, hlen2⟩ :=
          ih u2 f { r with url := u } hm hh hplain0 hchain2 hfuel2
        rw [hu2, hloop2]
        exact ⟨plainMReq r.method r.headers u :: reqs2, by simp,
          by simp [hlen2]⟩

/-- The transport request that prepare produces from a descriptor whose
only query param is the limit, pointed at a url with no query string. -/
def limitMReq (method : String) (headers : Dict) (l u : String) :
    MethodRequest :=
  { method := method, url := u ++ "?" ++ urlencodeD [("limit", l)],
    body := none, headers := headers }

theorem resp_paginator_loop_step_limit {α : Type}
    (send : MethodRequest → Option (PageObj α)) (f : Nat) (r : BaseRequest)
    (u l : String) (p : PageObj α) (hu : u ≠ "")
    (hjson : r.json = []) (hdata : r.data = []) (hauth : r.auth = none)
    (hparams : r.params = [("limit", l)]) (hsplit : pySplit '?' u = [u])
    (hsend : send (limitMReq r.method r.headers l u) = some p) :
    resp_paginator_loop send (f + 1) r (some u)
      = match resp_paginator_loop send f { r with url := u } p.next with
        | none => none
        | some (items, reqs) =>
            some (p.items ++ items, limitMReq r.method r.headers l u :: reqs)
      := by
  have hp : ({ r with url := u } : BaseRequest).params ≠ [] := by
    show r.params ≠ []
    rw [hparams]
    simp
  rw [resp_paginator_loop_step send f r u hu,
    prepare_query_no_split { r with url := u } u hjson hdata hauth hp hsplit]
  simp only [limitMReq] at hsend ⊢
  rw [hparams]
  rw [hsend]

/-- send serves the pages along a chain of query-free urls, answering
requests that carry the limit parameter re-encoded onto each url. -/
def servesLim {α : Type} (send : MethodRequest → Option (PageObj α))
    (method : String) (headers : Dict) (l : String) :
    String → List (PageObj α) → Prop
  | _, [] => False
  | u, [p] =>
      u ≠ "" ∧ pySplit '?' u = [u] ∧
        send (limitMReq method headers l u) = some p ∧
        truthy p.next = false
  | u, p :: q :: ps =>
      u ≠ "" ∧ pySplit '?' u = [u] ∧
        send (limitMReq method headers l u) = some p ∧
        ∃ u2, p.next = some u2 ∧ servesLim send method headers l u2 (q :: ps)

theorem resp_paginator_loop_chain_limit {α : Type}
    (send : MethodRequest → Option (PageObj α)) (method : String)
    (headers : Dict) (l : String) :
    ∀ (pages : List (PageObj α)) (u : String) (fuel : Nat)
      (r : BaseRequest),
      r.method = method → r.headers = headers →
      r.params = [("limit", l)] → r.json = [] → r.data = [] →
      r.auth = none →
      servesLim send method headers l u pages → pages.length ≤ fuel →
      ∃ reqs,
        resp_paginator_loop send fuel r (some u)
          = some ((pages.map (fun p => p.items)).flatten, reqs) ∧
        reqs.length = pages.length ∧
        ∀ m ∈ reqs, ∃ u0, pySplit '?' u0 = [u0] ∧
          m.url = u0 ++ "?" ++ urlencodeD [("limit", l)] := by
  intro pages
  induction pages with
  | nil =>
    intro u fuel r _ _ _ _ _ _ hchain _
    exact absurd hchain (by simp [servesLim])
  | cons p rest ih =>
    intro u fuel r hm hh hpar hjson hdata hauth hchain hfuel
    cases fuel with
    | zero => simp at hfuel
    | succ f =>
      have hu : u ≠ "" := by
        cases rest with
        | nil => exact hchain.1
        | cons q ps => exact hchain.1
      have hsp : pySplit '?' u = [u] := by
        cases rest with
        | nil => exact hchain.2.1
        | cons q ps => exact hchain.2.1
      have hsend : send (limitMReq r.method r.headers l u) = some p := by
        rw [hm, hh]
        cases rest with
        | nil => exact hchain.2.2.1
        | cons q ps => exact hchain.2.2.1
      rw [resp_paginator_loop_step_limit send f r u l p hu hjson hdata hauth
        hpar hsp hsend]
      cases rest with
      | nil =>
        have hnext : truthy p.next = false := hchain.2.2.2
        rw [resp_paginator_loop_done send f { r with url := u } p.next hnext]
        refine ⟨[limitMReq r.method r.headers l u], by simp, by simp, ?_⟩
        intro m hmem
        rw [List.mem_singleton] at hmem
        exact ⟨u, hsp, by rw [hmem]; rfl⟩
      | cons q ps =>
        obtain ⟨u2, hu2, hchain2⟩ := hchain.2.2.2
        have hfuel2 : (q :: ps).length ≤ f := by
          simp only [List.length_cons] at hfuel ⊢
          omega
        obtain ⟨reqs2, hloop2, hlen2, hurls2⟩ :=
          ih u2 f { r with url := u } hm hh hpar hjson hdata hauth hchain2
            hfuel2
        rw [hu2, hloop2]
        refine ⟨limitMReq r.method r.headers l u :: reqs2, by simp,
          by simp [hlen2], ?_⟩
        intro m hmem
        rcases List.mem_cons.mp hmem with hmem | hmem
        · exact ⟨u, hsp, by rw [hmem]; rfl⟩
        · exact hurls2 m hmem

/-! Behaviour of the per-chunk status check. -/

theorem prepareParams_ok_of_parts (r : BaseRequest)
    (h : (pySplit '?' r.url).length ≤ 2) :
    ∃ pu, prepareParams r = Except.ok pu := by
  by_cases hp : r.params = []
  · exact ⟨(r.params, r.url), prepareParams_empty r hp⟩
  · cases hs : pySplit '?' r.url with
    | nil => exact absurd hs (pySplitAux_ne_nil '?' r.url.data [])
    | cons a t =>
      cases t with
      | nil => exact ⟨_, prepareParams_one_part r a hp hs⟩
      | cons b t2 =>
        cases t2 with
        | nil => exact ⟨_, prepareParams_two_parts r a b hp hs⟩
        | cons c t3 =>
          rw [hs] at h
          simp at h

theorem prepare_ok_of_parts (r : BaseRequest) (hauth : r.auth = none)
    (h : (pySplit '?' r.url).length ≤ 2) :
    ∃ r' m, prepare r = Except.ok (r', m) := by
  obtain ⟨⟨ps, u⟩, hpp⟩ := prepareParams_ok_of_parts r h
  exact ⟨_, _, prepare_of_params_ok r ps u hauth hpp⟩

theorem prepare_mreq_headers (r r' : BaseRequest) (m : MethodRequest)
    (hauth : r.auth = none) (h : prepare r = Except.ok (r', m)) :
    m.headers = (prepareBody r).2 ∧ r'.headers = (prepareBody r).2 := by
  unfold prepare at h
  cases hpp : prepareParams r with
  | error e => rw [hpp] at h; exact absurd h (by simp)
  | ok pu =>
    rw [hpp] at h
    simp only [hauth] at h
    obtain ⟨hr, hm⟩ := Prod.mk.injEq .. ▸ (Except.ok.injEq .. ▸ h)
    constructor
    · rw [← hm]
    · rw [← hr]

theorem prepareBody_headers_get (r : BaseRequest) (k : String)
    (hk : k ≠ "Content-Type") :
    dictGet (prepareBody r).2 k = dictGet r.headers k := by
  unfold prepareBody
  split
  · exact dictGet_dictSet_other r.headers "Content-Type" "application/json"
      k hk
  · split
    · rfl
    · rfl

theorem prepare_ok_shape (r : BaseRequest) (ps : Dict) (u : String)
    (hpp : prepareParams r = Except.ok (ps, u)) :
    ∃ r' m, prepare r = Except.ok (r', m) ∧ r'.params = ps ∧ m.url = u := by
  unfold prepare
  rw [hpp]
  cases ha : r.auth with
  | none => exact ⟨_, _, rfl, rfl, rfl⟩
  | some ab => exact ⟨_, _, rfl, rfl, rfl⟩

/-- The headers as they stand when prepare returns: the body step's
headers, with the basic-auth Authorization write applied when auth is
set. -/
def prepAuthHeaders (r : BaseRequest) : Dict :=
  match r.auth with
  | none => (prepareBody r).2
  | some (u, p) =>
      dictSet (prepareBody r).2 "Authorization" ("Basic " ++ b64 (u ++ ":" ++ p))

theorem prepare_ok_shape_full (r : BaseRequest) (ps : Dict) (u : String)
    (hpp : prepareParams r = Except.ok (ps, u)) :
    prepare r =
      Except.ok
        ({ r with params := ps, headers := prepAuthHeaders r },
         { method := r.method, url := u, body := (prepareBody r).1,
           headers := prepAuthHeaders r }) := by
  unfold prepare prepAuthHeaders
  rw [hpp]

theorem prepare_unique (r r' : BaseRequest) (m : MethodRequest)
    (h : prepare r = Except.ok (r', m)) :
    ∃ ps u, prepareParams r = Except.ok (ps, u)
      ∧ r' = { r with params := ps, headers := prepAuthHeaders r }
      ∧ m = { method := r.method, url := u, body := (prepareBody r).1,
              headers := prepAuthHeaders r } := by
  cases hpp : prepareParams r with
  | error e =>
    unfold prepare at h
    rw [hpp] at h
    exact absurd h (by simp)
  | ok pu =>
    cases pu with
    | mk ps u =>
      have h2 := prepare_ok_shape_full r ps u hpp
      rw [h] at h2
      injection h2 with hpair
      injection hpair with ha hb
      subst ha
      subst hb
      exact ⟨ps, u, rfl, rfl, rfl⟩

theorem prepare_components (r r' : BaseRequest) (m : MethodRequest)
    (h : prepare r = Except.ok (r', m)) :
    prepareParams r = Except.ok (r'.params, m.url) := by
  obtain ⟨ps, u, hpp, ha, hb⟩ := prepare_unique r r' m h
  rw [ha, hb]
  exact hpp

theorem dictGet_prepAuthHeaders_CT (r : BaseRequest) :
    dictGet (prepAuthHeaders r) "Content-Type"
      = dictGet (prepareBody r).2 "Content-Type" := by
  unfold prepAuthHeaders
  cases r.auth with
  | none => rfl
  | some ab =>
    cases ab with
    | mk a b =>
      exact dictGet_dictSet_other (prepareBody r).2 "Authorization"
        ("Basic " ++ b64 (a ++ ":" ++ b)) "Content-Type" (by decide)

theorem prepare_mreq_body_and_ct (r r' : BaseRequest) (m : MethodRequest)
    (h : prepare r = Except.ok (r', m)) :
    m.body = (prepareBody r).1
      ∧ dictGet m.headers "Content-Type"
          = dictGet (prepareBody r).2 "Content-Type"
      ∧ dictGet r'.headers "Content-Type"
          = dictGet (prepareBody r).2 "Content-Type" := by
  obtain ⟨ps, u, hpp, ha, hb⟩ := prepare_unique r r' m h
  refine ⟨by rw [hb], ?_, ?_⟩
  · rw [hb]
    exact dictGet_prepAuthHeaders_CT r
  · rw [ha]
    exact dictGet_prepAuthHeaders_CT r

theorem prepareBody_headers_eq (r : BaseRequest) (h : r.json = []) :
    (prepareBody r).2 = r.headers := by
  unfold prepareBody
  rw [if_neg (by simp [h])]
  split
  · rfl
  · rfl

/-! Concrete inputs used by witnesses and counterexamples. -/

def rC2 : BaseRequest :=
  { method := "GET", url := "http://x?a=1&b=3", params := [("a","2")],
    json := [], data := [], headers := [], auth := none }

def rC2fix : BaseRequest :=
  { method := "GET", url := "http://x?a=1&b=3",
    params := [("a","1"), ("b","3")], json := [], data := [], headers := [],
    auth := none }

def mC2 : MethodRequest :=
  { method := "GET", url := "http://x?a=1&b=3", body := none, headers := [] }

def rC9 : BaseRequest :=
  { method := "POST", url := "http://x", params := [],
    json := [("a","1")], data := [("b","2")], headers := [], auth := none }

def rC9fix : BaseRequest :=
  { method := "POST", url := "http://x", params := [], json := [("a","1")],
    data := [("b","2")],
    headers := [("Content-Type", "application/json")], auth := none }

def mC9 : MethodRequest :=
  { method := "POST", url := "http://x", body := some (jsonDumps [("a","1")]),
    headers := [("Content-Type", "application/json")] }

def stW : ClientState :=
  { clientId := some "cid", clientSecret := some "sec",
    accessToken := some "acc", refreshToken := some "rt",
    redirectUri := some "uri", userId := some "uid" }

def ids130 : List String := List.replicate 130 "x"

def callUnit : BaseRequest → Unit := fun _ => ()

def reqC3 : BaseRequest :=
  { method := "GET", url := "u1", params := [], json := [], data := [],
    headers := [], auth := none }

def sendC3 : MethodRequest → Option (PageObj Nat) := fun m =>
  if m.url = "u1" then some { items := [1, 2], next := some "u2" }
  else if m.url = "u2" then some { items := [3], next := none }
  else none

def pagesC3 : List (PageObj Nat) :=
  [{ items := [1, 2], next := some "u2" }, { items := [3], next := none }]

def sendC5 : MethodRequest → Option (PageObj Nat) := fun m =>
  if m.url = "u1?limit=5" then some { items := [1, 2], next := some "u2" }
  else if m.url = "u2?limit=5" then some { items := [3], next := none }
  else none

/-! The claims. -/

/-- C2 counterexample: merging query_params a ↦ 2 into a URL that already
carries a=1&b=3 yields the query string a=1&b=3 — the URL's pair wins and
a=2 appears nowhere, against the claimed explicit-over-implicit
overwrite. -/
theorem c2_counterexample :
    prepare rC2 = Except.ok (rC2fix, mC2)
    ∧ mC2.url = "http://x?a=1&b=3"
    ∧ dictGet rC2fix.params "a" = some "1"
    ∧ subList (String.data "a=2") (String.data mC2.url) = false := by
  exact ⟨rfl, rfl, by decide, by decide⟩

/-- C2 (corrected): for a descriptor with non-empty query_params whose URL
splits into exactly one base and one query string, prepare succeeds and
re-encodes the union in which a key already present in the URL keeps the
URL's value (implicit over explicit), while keys absent from the URL keep
their explicitly-set values. -/
theorem c2_merge_url_wins (r : BaseRequest) (base qs : String)
    (hsplit : pySplit '?' r.url = [base, qs]) (hp : r.params ≠ []) :
    ∃ r' m, prepare r = Except.ok (r', m)
      ∧ m.url = base ++ "?" ++ urlencodeD (dictUpdate r.params (parseQs qs))
      ∧ r'.params = dictUpdate r.params (parseQs qs)
      ∧ (∀ k v, dictGet (parseQs qs) k = some v →
          dictGet r'.params k = some v)
      ∧ (∀ k, dictGet (parseQs qs) k = none →
          dictGet r'.params k = dictGet r.params k) := by
  have hpp := prepareParams_two_parts r base qs hp hsplit
  obtain ⟨r', m, hpe, hparams, hurl⟩ := prepare_ok_shape r _ _ hpp
  refine ⟨r', m, hpe, hurl, hparams, fun k v hk => ?_, fun k hk => ?_⟩
  · rw [hparams]
    exact dictGet_dictUpdate_of_some r.params (parseQs qs) k v
      (parseQs_keys_nodup qs) hk
  · rw [hparams]
    exact dictGet_dictUpdate_of_none r.params (parseQs qs) k hk

/-- C2 witness: the corrected merge evaluated on the concrete descriptor
with explicit a ↦ 2 against the URL query a=1&b=3. -/
theorem c2_merge_url_wins_witness :
    ∃ r' m, prepare rC2 = Except.ok (r', m)
      ∧ m.url = "http://x" ++ "?"
          ++ urlencodeD (dictUpdate rC2.params (parseQs "a=1&b=3"))
      ∧ r'.params = dictUpdate rC2.params (parseQs "a=1&b=3")
      ∧ (∀ k v, dictGet (parseQs "a=1&b=3") k = some v →
          dictGet r'.params k = some v)
      ∧ (∀ k, dictGet (parseQs "a=1&b=3") k = none →
          dictGet r'.params k = dictGet rC2.params k) :=
  c2_merge_url_wins rC2 "http://x" "a=1&b=3" (by decide) (by decide)

/-- The state after a successful refresh: access token replaced, refresh
token replaced only when the payload carries one
(src/spotify.py:208-209). -/
def refreshedState (st : ClientState) (p : TokenPayload) : ClientState :=
  { st with
      accessToken := some p.accessToken,
      refreshToken :=
        match p.refreshToken with
        | some t => some t
        | none => st.refreshToken }

/-- C6: the refresh operation raises when the stored refresh_token is
null; on a successful token-endpoint response it replaces access_token
and replaces refresh_token only when the response carries one, leaving
the rest of the client state untouched; on an error status it raises an
error carrying the upstream status and body. -/
theorem c6_refresh_token_rules (st : ClientState) (resp : HttpResult) :
    (st.refreshToken = none →
      refresh_access_token st resp
        = RunResult.err st "missing refresh token")
    ∧ (∀ s b, st.refreshToken ≠ none → resp = HttpResult.httpError s b →
        refresh_access_token st resp
          = RunResult.err st
              ("error refreshing user token - " ++ toString s ++ " - " ++ b))
    ∧ (∀ p, st.refreshToken ≠ none → resp = HttpResult.success p →
        ∃ st2, refresh_access_token st resp = RunResult.ok st2
          ∧ st2.accessToken = some p.accessToken
          ∧ (p.refreshToken = none → st2.refreshToken = st.refreshToken)
          ∧ (∀ t, p.refreshToken = some t → st2.refreshToken = some t)
          ∧ st2.userId = st.userId ∧ st2.clientId = st.clientId
          ∧ st2.clientSecret = st.clientSecret
          ∧ st2.redirectUri = st.redirectUri) := by
  refine ⟨fun h => by simp [refresh_access_token, h],
    fun s b hne hr => ?_, fun p hne hr => ?_⟩
  · subst hr
    simp [refresh_access_token, hne]
  · subst hr
    refine ⟨refreshedState st p,
      by simp [refresh_access_token, refreshedState, hne], rfl, ?_, ?_, rfl,
      rfl, rfl, rfl⟩
    · intro h0
      simp [refreshedState, h0]
    · intro t ht
      simp [refreshedState, ht]

/-- C6 witness: a refresh against a success payload with no new refresh
token replaces the access token and keeps the stored refresh token. -/
theorem c6_refresh_token_rules_witness :
    ∃ st2,
      refresh_access_token stW
          (HttpResult.success { accessToken := "newTok", refreshToken := none })
        = RunResult.ok st2
      ∧ st2.accessToken = some "newTok"
      ∧ st2.refreshToken = stW.refreshToken := by
  obtain ⟨-, -, hsucc⟩ :=
    c6_refresh_token_rules stW
      (HttpResult.success { accessToken := "newTok", refreshToken := none })
  obtain ⟨st2, heq, hacc, hkeep, -, -, -, -⟩ :=
    hsucc { accessToken := "newTok", refreshToken := none } (by decide) rfl
  exact ⟨st2, heq, hacc, hkeep rfl⟩

/-- C10: when the token endpoint answers with an error status, both the
refresh operation and the authorization-code exchange raise an error and
the client state carried out of the run is exactly the state before the
call. -/
theorem c10_token_state_atomic_on_error (st : ClientState) (s : Nat)
    (b : String) (h1 : st.refreshToken ≠ none)
    (h2 : ¬(st.clientId = none ∨ st.clientSecret = none))
    (h3 : st.redirectUri ≠ none) :
    refresh_access_token st (HttpResult.httpError s b)
        = RunResult.err st
            ("error refreshing user token - " ++ toString s ++ " - " ++ b)
      ∧ register_code st (HttpResult.httpError s b)
        = RunResult.err st
            ("error generating user access token - " ++ toString s ++ " - "
              ++ b) := by
  constructor
  · simp [refresh_access_token, h1]
  · simp [register_code, h2, fun h => h3 h]

/-- C10 witness: the atomicity statement evaluated at a concrete client
state and a 500 response. -/
theorem c10_token_state_atomic_on_error_witness :
    refresh_access_token stW (HttpResult.httpError 500 "oops")
        = RunResult.err stW
            ("error refreshing user token - " ++ toString 500 ++ " - "
              ++ "oops")
      ∧ register_code stW (HttpResult.httpError 500 "oops")
        = RunResult.err stW
            ("error generating user access token - " ++ toString 500 ++ " - "
              ++ "oops") :=
  c10_token_state_atomic_on_error stW 500 "oops" (by decide) (by decide)
    (by decide)

/-- C9: when both a json body and a form body are non-empty, prepare
serializes the json body as the request body and sets Content-Type to
application/json; the form body is not what is serialized. -/
theorem c9_json_body_priority (r r' : BaseRequest) (m : MethodRequest)
    (hj : r.json ≠ []) (_hd : r.data ≠ [])
    (hprep : prepare r = Except.ok (r', m)) :
    m.body = some (jsonDumps r.json)
      ∧ dictGet m.headers "Content-Type" = some "application/json" := by
  have hmh := prepare_mreq_body_and_ct r r' m hprep
  constructor
  · rw [hmh.1, prepareBody_json r hj]
  · rw [hmh.2.1, prepareBody_json r hj]
    exact dictGet_dictSet_self r.headers "Content-Type" "application/json"

/-- C9 witness: a descriptor carrying both bodies evaluated through
prepare. -/
theorem c9_json_body_priority_witness :
    mC9.body = some (jsonDumps rC9.json)
      ∧ dictGet mC9.headers "Content-Type" = some "application/json" :=
  c9_json_body_priority rC9 rC9fix mC9 (by decide) (by decide) rfl

/-- C8 counterexample: prepare is not free of side effects on the
descriptor — a json body writes Content-Type into the descriptor's
headers, and a URL with an existing query string writes the merged pairs
into the descriptor's params. -/
theorem c8_counterexample :
    (prepare rC9 = Except.ok (rC9fix, mC9) ∧ rC9fix.headers ≠ rC9.headers)
    ∧ (prepare rC2 = Except.ok (rC2fix, mC2) ∧ rC2fix.params ≠ rC2.params) :=
  ⟨⟨rfl, by decide⟩, ⟨rfl, by decide⟩⟩

/-- C8 (corrected): prepare leaves method, url, json_body, form_body and
basic_auth untouched; query_params survive when they are empty or when
the URL carries no query string, and headers survive when there is no
json body and no basic auth — but headers and params may be mutated in
the remaining cases (shown by the counterexample). -/
theorem c8_prepare_descriptor_frame (r r' : BaseRequest) (m : MethodRequest)
    (h : prepare r = Except.ok (r', m)) :
    r'.method = r.method ∧ r'.url = r.url ∧ r'.json = r.json
      ∧ r'.data = r.data ∧ r'.auth = r.auth
      ∧ (r.params = [] → r'.params = r.params)
      ∧ ((pySplit '?' r.url).length = 1 → r'.params = r.params)
      ∧ (r.json = [] ∧ r.auth = none → r'.headers = r.headers) := by
  obtain ⟨hm, hu, hj, hd, ha⟩ := prepare_frame r r' m h
  have hcomp := prepare_components r r' m h
  refine ⟨hm, hu, hj, hd, ha, ?_, ?_, ?_⟩
  · intro hp
    rw [prepareParams_empty r hp] at hcomp
    injection hcomp with hpair
    injection hpair with h1 h2
    rw [h1]
  · intro hlen
    by_cases hp : r.params = []
    · rw [prepareParams_empty r hp] at hcomp
      injection hcomp with hpair
      injection hpair with h1 h2
      rw [h1]
    · cases hs : pySplit '?' r.url with
      | nil => exact absurd hs (pySplitAux_ne_nil '?' r.url.data [])
      | cons a t =>
        cases t with
        | nil =>
          rw [prepareParams_one_part r a hp hs] at hcomp
          injection hcomp with hpair
          injection hpair with h1 h2
          rw [h1]
        | cons b t2 =>
          rw [hs] at hlen
          simp at hlen
  · intro hja
    obtain ⟨ps, u, hpp, har, hbm⟩ := prepare_unique r r' m h
    rw [har]
    show prepAuthHeaders r = r.headers
    unfold prepAuthHeaders
    rw [hja.2]
    exact prepareBody_headers_eq r hja.1

/-- C8 witness: the partial frame evaluated on the concrete descriptor
with a json body. -/
theorem c8_prepare_descriptor_frame_witness :
    rC9fix.method = rC9.method ∧ rC9fix.url = rC9.url
      ∧ rC9fix.json = rC9.json ∧ rC9fix.data = rC9.data
      ∧ rC9fix.auth = rC9.auth
      ∧ (rC9.params = [] → rC9fix.params = rC9.params)
      ∧ ((pySplit '?' rC9.url).length = 1 → rC9fix.params = rC9.params)
      ∧ (rC9.json = [] ∧ rC9.auth = none → rC9fix.headers = rC9.headers) :=
  c8_prepare_descriptor_frame rC9 rC9fix mC9 rfl

/-- C4: for every chunk size n > 0 the batch sequencer partitions the
identifier list into contiguous chunks of at most n in input order whose
concatenation is the input, every chunk except possibly the last having
exactly n elements; it issues exactly ceil(len/n) dispatcher calls, one
per chunk in chunk order, writing the comma-joined chunk into the named
query parameter. -/
theorem c4_batch_chunking_and_calls (xs : List String) (n : Nat)
    (hn : 0 < n) {ρ : Type} (call : BaseRequest → ρ) (req : BaseRequest)
    (iname : String) (pt : ParamType) :
    (chunked xs n).flatten = xs
    ∧ (∀ c ∈ chunked xs n, c.length ≤ n)
    ∧ (∀ c ∈ (chunked xs n).dropLast, c.length = n)
    ∧ (chunked xs n).length = (xs.length + n - 1) / n
    ∧ (req_paginator call req xs iname n pt).1.length
        = (xs.length + n - 1) / n
    ∧ (req_paginator (fun r => r) req xs iname n ParamType.QUERY).1.map
          (fun r2 => dictGet r2.params iname)
        = (chunked xs n).map (fun c => some (String.intercalate "," c)) := by
  obtain ⟨m, rfl⟩ : ∃ m, n = m + 1 := ⟨n - 1, by omega⟩
  have hceil : (xs.length + (m + 1) - 1) / (m + 1) = (xs.length + m) / (m + 1)
      := by
    have : xs.length + (m + 1) - 1 = xs.length + m := by omega
    rw [this]
  refine ⟨chunkedAux_flatten m xs.length xs le_rfl,
    fun c hc => chunkedAux_sizes m xs.length xs c hc,
    fun c hc => chunkedAux_full_sizes m xs.length xs c hc, ?_, ?_, ?_⟩
  · rw [hceil]
    exact chunkedAux_count m xs.length xs le_rfl
  · rw [hceil]
    unfold req_paginator
    rw [req_paginator_go_length call iname pt (chunked xs (m + 1)) req]
    exact chunkedAux_count m xs.length xs le_rfl
  · unfold req_paginator
    exact req_paginator_go_payloads iname (chunked xs (m + 1)) req

set_option maxRecDepth 4000 in
/-- C4 witness: 130 ids with chunk size 50 produce chunks of sizes
50, 50, 30 and exactly 3 dispatcher calls. -/
theorem c4_batch_chunking_and_calls_witness :
    (0 < 50 ∧ (chunked ids130 50).map List.length = [50, 50, 30]
      ∧ (req_paginator callUnit reqC3 ids130 "ids" 50 ParamType.QUERY).1.length
          = 3)
    ∧ ((chunked ids130 50).flatten = ids130
      ∧ (∀ c ∈ chunked ids130 50, c.length ≤ 50)
      ∧ (∀ c ∈ (chunked ids130 50).dropLast, c.length = 50)
      ∧ (chunked ids130 50).length = (ids130.length + 50 - 1) / 50
      ∧ (req_paginator callUnit reqC3 ids130 "ids" 50 ParamType.QUERY).1.length
          = (ids130.length + 50 - 1) / 50
      ∧ (req_paginator (fun r => r) reqC3 ids130 "ids" 50
            ParamType.QUERY).1.map (fun r2 => dictGet r2.params "ids")
          = (chunked ids130 50).map
              (fun c => some (String.intercalate "," c))) :=
  ⟨⟨by decide, by decide, by decide⟩,
    c4_batch_chunking_and_calls ids130 50 (by decide) callUnit reqC3 "ids"
      ParamType.QUERY⟩

/-- C3: over a finite chain of pages, each carrying its items and a next
cursor that is null only on the last page, the page sequencer yields
exactly the concatenation of the pages' items in page and within-page
order, issuing exactly one dispatcher call per page. -/
theorem c3_page_sequencer_joins_pages {α : Type}
    (send : MethodRequest → Option (PageObj α)) (req : BaseRequest)
    (pages : List (PageObj α)) (fuel : Nat) (hplain : plainReq req)
    (hchain : servesFrom send req.method req.headers req.url pages)
    (hfuel : pages.length ≤ fuel) :
    ∃ reqs, resp_paginator send fuel req none
        = some ((pages.map (fun p => p.items)).flatten, reqs)
      ∧ reqs.length = pages.length :=
  resp_paginator_loop_chain send req.method req.headers pages req.url fuel
    req rfl rfl hplain hchain hfuel

/-- C3 witness: two pages with items 1,2 and 3 yield exactly 1,2,3 with
exactly two calls. -/
theorem c3_page_sequencer_joins_pages_witness :
    ∃ reqs, resp_paginator sendC3 2 reqC3 none = some ([1, 2, 3], reqs)
      ∧ reqs.length = 2 := by
  have hchain : servesFrom sendC3 reqC3.method reqC3.headers reqC3.url
      pagesC3 :=
    ⟨by decide, by decide, "u2", rfl, by decide, by decide, by decide⟩
  exact c3_page_sequencer_joins_pages sendC3 reqC3 pagesC3 2
    ⟨rfl, rfl, rfl, rfl⟩ hchain (by decide)

/-- C5 counterexample: with page_size 5 over pages whose next cursor is
u2, the second request's URL is u2?limit=5, not the server-furnished u2
verbatim — the limit parameter is applied beyond the first request. -/
theorem c5_counterexample :
    (resp_paginator sendC5 2 reqC3 (some "5")).map
        (fun pr => pr.2.map (fun m => m.url))
      = some ["u1?limit=5", "u2?limit=5"]
    ∧ ("u2?limit=5" : String) ≠ "u2" := by
  exact ⟨by decide, by decide⟩

/-- C5 (corrected): the limit is stored in the reused descriptor's params
before the first request, so every request of the iteration — not only
the first — carries the limit query parameter appended to that page's
url; the server-furnished next URL is not used verbatim. -/
theorem c5_limit_reapplied_each_request {α : Type}
    (send : MethodRequest → Option (PageObj α)) (req : BaseRequest)
    (pages : List (PageObj α)) (l : String) (fuel : Nat)
    (hplain : plainReq req)
    (hchain : servesLim send req.method req.headers l req.url pages)
    (hfuel : pages.length ≤ fuel) :
    ∃ reqs, resp_paginator send fuel req (some l)
        = some ((pages.map (fun p => p.items)).flatten, reqs)
      ∧ reqs.length = pages.length
      ∧ ∀ m ∈ reqs, ∃ u0, pySplit '?' u0 = [u0]
          ∧ m.url = u0 ++ "?" ++ urlencodeD [("limit", l)] := by
  have hps : dictSet req.params "limit" l = [("limit", l)] := by
    rw [hplain.1]
    rfl
  exact resp_paginator_loop_chain_limit send req.method req.headers l pages
    req.url fuel { req with params := dictSet req.params "limit" l } rfl rfl
    hps hplain.2.1 hplain.2.2.1 hplain.2.2.2 hchain hfuel

/-- C5 witness: the corrected statement evaluated on the concrete
two-page chain — both issued URLs carry limit=5. -/
theorem c5_limit_reapplied_each_request_witness :
    ∃ reqs, resp_paginator sendC5 2 reqC3 (some "5")
        = some ([1, 2, 3], reqs)
      ∧ reqs.length = 2
      ∧ ∀ m ∈ reqs, ∃ u0, pySplit '?' u0 = [u0]
          ∧ m.url = u0 ++ "?" ++ urlencodeD [("limit", "5")] := by
  have hchain : servesLim sendC5 reqC3.method reqC3.headers "5" reqC3.url
      pagesC3 :=
    ⟨by decide, by decide, by decide, "u2", rfl, by decide, by decide,
      by decide, by decide⟩
  exact c5_limit_reapplied_each_request sendC5 reqC3 pagesC3 "5" 2
    ⟨rfl, rfl, rfl, rfl⟩ hchain (by decide)

theorem dictGet_prepAuthHeaders_auth_none (r : BaseRequest) (k : String)
    (hauth : r.auth = none) (hk : k ≠ "Content-Type") :
    dictGet (prepAuthHeaders r) k = dictGet r.headers k := by
  unfold prepAuthHeaders
  rw [hauth]
  exact prepareBody_headers_get r k hk

/-- C1: when the first send raises 401, the dispatcher runs the token
refresh exactly once and sends at most once more; when the refresh
succeeds it re-sets the bearer header from the refreshed access token on
the second transport request, sends exactly once more and returns that
outcome — a second failure is surfaced as a final error with no third
send and no second refresh; when the refresh itself fails, its error
propagates after the single send. -/
theorem c1_dispatcher_single_retry (st : ClientState) (req : BaseRequest)
    (b : String) (refreshResp : HttpResult) (o2 : HttpOutcome)
    (hq : (pySplit '?' req.url).length ≤ 2) (hauth : req.auth = none) :
    (api_req st req (HttpOutcome.httpError 401 b) refreshResp o2).refreshCalls
        = 1
    ∧ (api_req st req (HttpOutcome.httpError 401 b) refreshResp o2).issued.length
        ≤ 2
    ∧ (∀ st1, refresh_access_token st refreshResp = RunResult.ok st1 →
        (api_req st req (HttpOutcome.httpError 401 b) refreshResp o2).state
            = st1
        ∧ (api_req st req (HttpOutcome.httpError 401 b) refreshResp
              o2).issued.length = 2
        ∧ (∃ m2, (api_req st req (HttpOutcome.httpError 401 b) refreshResp
              o2).issued.getLast? = some m2
            ∧ dictGet m2.headers "Authorization"
                = some ("Bearer " ++ pyStr st1.accessToken))
        ∧ (∀ s2 b2, o2 = HttpOutcome.ok s2 b2 →
            (api_req st req (HttpOutcome.httpError 401 b) refreshResp
                o2).result = Except.ok (s2, b2))
        ∧ (∀ s2 b2, o2 = HttpOutcome.httpError s2 b2 →
            (api_req st req (HttpOutcome.httpError 401 b) refreshResp
                o2).result
              = Except.error
                  ("error issuing api request - " ++ toString s2 ++ " - "
                    ++ b2)))
    ∧ (∀ st1 m, refresh_access_token st refreshResp = RunResult.err st1 m →
        (api_req st req (HttpOutcome.httpError 401 b) refreshResp o2).result
            = Except.error m
        ∧ (api_req st req (HttpOutcome.httpError 401 b) refreshResp
              o2).issued.length = 1
        ∧ (api_req st req (HttpOutcome.httpError 401 b) refreshResp o2).state
            = st1) := by
  obtain ⟨r2, m1, hprep1⟩ := prepare_ok_of_parts
    { req with headers := (dictSet req.headers "Authorization"
        ("Bearer " ++ pyStr st.accessToken)) } hauth hq
  have hframe1 := prepare_frame _ r2 m1 hprep1
  have hr2url : r2.url = req.url := hframe1.2.1
  have hr2auth : r2.auth = none := (hframe1.2.2.2.2).trans hauth
  cases href : refresh_access_token st refreshResp with
  | err st1 msg =>
    have hout : api_req st req (HttpOutcome.httpError 401 b) refreshResp o2
        = { result := Except.error msg, issued := [m1], refreshCalls := 1,
            state := st1, req := r2 } := by
      simp only [api_req]
      rw [hprep1]
      dsimp only
      rw [if_neg (by simp)]
      rw [href]
    rw [hout]
    refine ⟨rfl, by simp, fun st1' h' => absurd h' (by simp),
      fun st1' m' h'' => ?_⟩
    injection h'' with h1 h2
    subst h1
    subst h2
    exact ⟨rfl, by simp, rfl⟩
  | ok st1 =>
    obtain ⟨r4, m2, hprep2⟩ := prepare_ok_of_parts
      { r2 with headers := (dictSet r2.headers "Authorization"
          ("Bearer " ++ pyStr st1.accessToken)) } hr2auth
      (by show (pySplit '?' r2.url).length ≤ 2; rw [hr2url]; exact hq)
    have hm2ha : dictGet m2.headers "Authorization"
        = some ("Bearer " ++ pyStr st1.accessToken) := by
      obtain ⟨ps, u, hpp, har, hbm⟩ := prepare_unique _ r4 m2 hprep2
      rw [hbm]
      show dictGet (prepAuthHeaders { r2 with headers := (dictSet r2.headers
        "Authorization" ("Bearer " ++ pyStr st1.accessToken)) })
        "Authorization" = _
      rw [dictGet_prepAuthHeaders_auth_none { r2 with headers :=
        (dictSet r2.headers "Authorization"
          ("Bearer " ++ pyStr st1.accessToken)) } "Authorization" hr2auth
        (by decide)]
      show dictGet (dictSet r2.headers "Authorization"
        ("Bearer " ++ pyStr st1.accessToken)) "Authorization" = _
      exact dictGet_dictSet_self r2.headers "Authorization" _
    cases o2 with
    | ok s2 b2 =>
      have hout : api_req st req (HttpOutcome.httpError 401 b) refreshResp
          (HttpOutcome.ok s2 b2)
          = { result := Except.ok (s2, b2), issued := [m1, m2],
              refreshCalls := 1, state := st1, req := r4 } := by
        simp only [api_req]
        rw [hprep1]
        dsimp only
        rw [if_neg (by simp)]
        rw [href]
        dsimp only
        rw [hprep2]
      rw [hout]
      refine ⟨rfl, by simp, fun st1' h' => ?_, fun st1' m' h'' =>
        absurd h'' (by simp)⟩
      injection h' with h1
      subst h1
      refine ⟨rfl, by simp, ⟨m2, by simp, hm2ha⟩, ?_, ?_⟩
      · intro s3 b3 heq
        injection heq with h3 h4
        subst h3
        subst h4
        rfl
      · intro s3 b3 heq
        exact absurd heq (by simp)
    | httpError s2 b2 =>
      have hout : api_req st req (HttpOutcome.httpError 401 b) refreshResp
          (HttpOutcome.httpError s2 b2)
          = { result := Except.error ("error issuing api request - "
                ++ toString s2 ++ " - " ++ b2),
              issued := [m1, m2], refreshCalls := 1, state := st1,
              req := r4 } := by
        simp only [api_req]
        rw [hprep1]
        dsimp only
        rw [if_neg (by simp)]
        rw [href]
        dsimp only
        rw [hprep2]
      rw [hout]
      refine ⟨rfl, by simp, fun st1' h' => ?_, fun st1' m' h'' =>
        absurd h'' (by simp)⟩
      injection h' with h1
      subst h1
      refine ⟨rfl, by simp, ⟨m2, by simp, hm2ha⟩, ?_, ?_⟩
      · intro s3 b3 heq
        exact absurd heq (by simp)
      · intro s3 b3 heq
        injection heq with h3 h4
        subst h3
        subst h4
        rfl

/-- C1 witness: a concrete 401-then-200 run — one refresh, two sends, the
second send carrying the refreshed bearer token, and the 200 response
returned. -/
theorem c1_dispatcher_single_retry_witness :
    (api_req stW reqC3 (HttpOutcome.httpError 401 "expired")
        (HttpResult.success { accessToken := "tokB", refreshToken := none })
        (HttpOutcome.ok 200 "body")).refreshCalls = 1
    ∧ (api_req stW reqC3 (HttpOutcome.httpError 401 "expired")
        (HttpResult.success { accessToken := "tokB", refreshToken := none })
        (HttpOutcome.ok 200 "body")).issued.length = 2
    ∧ (∃ m2, (api_req stW reqC3 (HttpOutcome.httpError 401 "expired")
          (HttpResult.success { accessToken := "tokB", refreshToken := none })
          (HttpOutcome.ok 200 "body")).issued.getLast? = some m2
        ∧ dictGet m2.headers "Authorization" = some ("Bearer " ++ "tokB"))
    ∧ (api_req stW reqC3 (HttpOutcome.httpError 401 "expired")
        (HttpResult.success { accessToken := "tokB", refreshToken := none })
        (HttpOutcome.ok 200 "body")).result = Except.ok (200, "body") := by
  obtain ⟨hA, hB, hC, hD⟩ := c1_dispatcher_single_retry stW reqC3 "expired"
    (HttpResult.success { accessToken := "tokB", refreshToken := none })
    (HttpOutcome.ok 200 "body") (by decide) rfl
  obtain ⟨hst, hlen, hm2, hok, -⟩ :=
    hC { stW with accessToken := some "tokB" } rfl
  exact ⟨hA, hlen, hm2, hok 200 "body" rfl⟩
